import Mathlib

/-!
# Verification of the `dynquee` event-driven marquee runtime

A shallow embedding of the core of `dynquee.py` (MQTT subscriber snapshot
parsing, media resolver, slideshow media canonicalization, command
templating, and the event handler's state machine), together with theorems
checking the natural-language specification against the code.

Python strings are modelled as Lean `String`/`List Char`; Python dicts of
event parameters as association lists with unique keys maintained by
`setParam`; Python exceptions as `Except Unit`; the filesystem seen by
`glob.glob` as an oracle function from glob patterns to file lists.
All string helpers (`strip`, `split`, `lower`, ...) are modelled for the
ASCII inputs the program manipulates.
-/

namespace Dynquee

/-- Characters treated as whitespace by Python `str.strip()` / `str.split()`
(ASCII range). -/
def pyIsSpace (c : Char) : Bool :=
  c = ' ' || c = '\t' || c = '\n' || c = '\r' || c = '\x0b' || c = '\x0c'

/-- Drop leading whitespace characters. -/
def dropLeadingSpace (l : List Char) : List Char :=
  l.dropWhile pyIsSpace

/-- Python `str.strip()`: remove leading and trailing whitespace. -/
def pyStrip (s : String) : String :=
  ⟨((s.data.dropWhile pyIsSpace).reverse.dropWhile pyIsSpace).reverse⟩

/-- Worker for `pySplit`: split on whitespace runs, dropping empty fields,
with `acc` holding the (reversed) current field. -/
def pySplitAux : List Char → List Char → List (List Char)
  | [], acc => if acc.isEmpty then [] else [acc.reverse]
  | c :: cs, acc =>
    if pyIsSpace c then
      if acc.isEmpty then pySplitAux cs [] else acc.reverse :: pySplitAux cs []
    else
      pySplitAux cs (c :: acc)

/-- Python `str.split()` with no separator: split on whitespace runs,
discarding empty fields. -/
def pySplit (s : String) : List String :=
  (pySplitAux s.data []).map (fun l => ⟨l⟩)

/-- Worker for `splitOnChar`. -/
def splitOnCharAux (sep : Char) : List Char → List Char → List (List Char)
  | [], acc => [acc.reverse]
  | c :: cs, acc =>
    if c = sep then acc.reverse :: splitOnCharAux sep cs []
    else splitOnCharAux sep cs (c :: acc)

/-- Python `str.split(sep)` for a single-character separator: empty fields
are kept. -/
def splitOnChar (sep : Char) (s : String) : List String :=
  (splitOnCharAux sep s.data []).map (fun l => ⟨l⟩)

/-- Worker for `splitCRLF`. -/
def splitCRLFAux : List Char → List Char → List (List Char)
  | [], acc => [acc.reverse]
  | '\r' :: '\n' :: cs, acc => acc.reverse :: splitCRLFAux cs []
  | c :: cs, acc => splitCRLFAux cs (c :: acc)

/-- Python `str.split('\r\n')` as used on the remote ES state body. -/
def splitCRLF (s : String) : List String :=
  (splitCRLFAux s.data []).map (fun l => ⟨l⟩)

/-- Python `c.isupper()` for ASCII: is `c` in `A`..`Z`? -/
def pyIsUpper (c : Char) : Bool :=
  65 ≤ c.toNat && c.toNat ≤ 90

/-- Python `c.islower()` for ASCII: is `c` in `a`..`z`? -/
def pyIsLower (c : Char) : Bool :=
  97 ≤ c.toNat && c.toNat ≤ 122

/-- Python `c.isalpha()` restricted to ASCII letters (the character data the
program manipulates). -/
def pyIsAlpha (c : Char) : Bool :=
  pyIsUpper c || pyIsLower c

/-- Python `c.lower()` on a single ASCII character. -/
def pyToLower (c : Char) : Char :=
  if 65 ≤ c.toNat ∧ c.toNat ≤ 90 then Char.ofNat (c.toNat + 32) else c

/-- Python `c.upper()` on a single ASCII character. -/
def pyToUpper (c : Char) : Char :=
  if 97 ≤ c.toNat ∧ c.toNat ≤ 122 then Char.ofNat (c.toNat - 32) else c

/-- Python `str.lower()` (ASCII). -/
def pyLowerStr (s : String) : String :=
  ⟨s.data.map pyToLower⟩

/-! ## Event parameters

`EventParams = Dict[str, str]` is modelled as an association list whose
keys are unique (updates via `setParam` overwrite in place). -/

/-- A Python `dict` of event parameters. -/
abbrev EventParams := List (String × String)

/-- Python `d.get(key)`: the value at `key`, if present. -/
def lookupParam (ps : EventParams) (k : String) : Option String :=
  (ps.find? (fun kv => kv.1 = k)).map (·.2)

/-- Python `d.get(key, default)`. -/
def getParamD (ps : EventParams) (k d : String) : String :=
  (lookupParam ps k).getD d

/-- Python `d.get(key, '')`, the pervasive access idiom of `dynquee.py`. -/
def getParam (ps : EventParams) (k : String) : String :=
  getParamD ps k ""

/-- Python `d[key] = value`: overwrite an existing binding in place, else
append a new binding. -/
def setParam (ps : EventParams) (k v : String) : EventParams :=
  if ps.any (fun kv => kv.1 = k) then
    ps.map (fun kv => if kv.1 = k then (k, v) else kv)
  else
    ps ++ [(k, v)]

/-! ## `EventHandler.ESState` -/

/-- `EventHandler.ESState`: immutable record of EmulationStation state. -/
structure ESState where
  action : String := ""
  system : String := ""
  game : String := ""
  isFolder : Bool := false
deriving DecidableEq, Repr

/-- `ESState.fromEvent`: derive the state from event parameters via the
canonical keys; `IsFolder` is true iff the parameter is present and `"1"`. -/
def ESState.fromEvent (evParams : EventParams) : ESState :=
  { action := getParam evParams "Action"
    system := getParam evParams "SystemId"
    game := getParam evParams "GamePath"
    isFolder := lookupParam evParams "IsFolder" = some "1" }

/-! ## `EventHandler` state machine -/

/-- The per-action state-change rules from the `[change]` config section
(`EventHandler.ChangeRuleSet`), as an association list. -/
abbrev ChangeRuleSet := List (String × String)

/-- `EventHandler._hasStateChanged`: decide whether EmulationStation's state
changed enough to change the displayed media, given the stored current
state, the change rules, and the incoming event's parameters. -/
def hasStateChanged (currentState : ESState) (evParams : EventParams)
    (changeRules : ChangeRuleSet) : Bool :=
  let newState := ESState.fromEvent evParams
  if newState.action = "wakeup" then true
  else if currentState.action = "endgame" then true
  else
    let changeWhen := getParamD changeRules newState.action ""
    if changeWhen = "" ∨ changeWhen = "never" then false
    else if changeWhen = "always" then true
    else if changeWhen = "action" then !(newState.action = currentState.action)
    else if changeWhen = "system" then !(newState.system = currentState.system)
    else if changeWhen = "game" then !(newState.game = currentState.game)
    else if changeWhen = "system/game" then
      !(newState.system = currentState.system ∧ newState.game = currentState.game)
    else true

/-- Does `pre` occur at the start of `l`? -/
def charsPrefix : List Char → List Char → Bool
  | [], _ => true
  | _ :: _, [] => false
  | a :: as, b :: bs => a = b && charsPrefix as bs

/-- Python's `needle in haystack` on two strings: substring containment. -/
def strContains (haystack needle : String) : Bool :=
  go needle.data haystack.data
where
  /-- Try a match at every suffix of the haystack. -/
  go (needle : List Char) : List Char → Bool
    | [] => needle.isEmpty
    | c :: rest => charsPrefix needle (c :: rest) || go needle rest

/-- `EventHandler._convertArcadeSystems`: rewrite `SystemId` to `arcade`
when the feature is enabled, the id is non-empty, and — as the Python `in`
operator on two strings tests — the id is a substring of the raw
`arcade_systems` config string. -/
def convertArcadeSystems (arcadeSystemEnabled : Bool) (arcadeSystems : String)
    (evParams : EventParams) : EventParams :=
  let systemId := getParam evParams "SystemId"
  if arcadeSystemEnabled ∧ ¬systemId = "" ∧ strContains arcadeSystems systemId then
    setParam evParams "SystemId" "arcade"
  else
    evParams

/-- The mutable state of an `EventHandler` instance. -/
structure HandlerState where
  currentState : ESState := {}
  previousEvParams : EventParams := []
  stateBeforeSleep : ESState := {}
deriving Repr

/-- `EventHandler._updateState`: update the state record from the incoming
event and return the (possibly restored) event params. -/
def updateState (st : HandlerState) (evParams : EventParams) :
    HandlerState × EventParams :=
  let action := getParam evParams "Action"
  let stateBeforeSleep :=
    if action = "sleep" then st.currentState else st.stateBeforeSleep
  let previousEvParams :=
    if ¬(action = "sleep" ∨ action = "wakeup") then evParams
    else st.previousEvParams
  let currentState := ESState.fromEvent evParams
  if action = "wakeup" then
    ({ currentState := stateBeforeSleep, previousEvParams, stateBeforeSleep },
      previousEvParams)
  else
    ({ currentState, previousEvParams, stateBeforeSleep }, evParams)

/-- The configuration an `EventHandler` reads at construction. -/
structure HandlerConfig where
  arcadeSystemEnabled : Bool := false
  arcadeSystems : String := ""
  changeRules : ChangeRuleSet := []

/-- `EventHandler._handleEvent` up to the media query: apply the arcade
remap, evaluate the state-change filter, update the state, and return the
new state together with `some params` iff the media resolver is queried
(with exactly those params). -/
def handleEvent (cfg : HandlerConfig) (st : HandlerState)
    (evParams₀ : EventParams) : HandlerState × Option EventParams :=
  let evParams :=
    if cfg.arcadeSystemEnabled then
      convertArcadeSystems cfg.arcadeSystemEnabled cfg.arcadeSystems evParams₀
    else evParams₀
  let stateChanged := hasStateChanged st.currentState evParams cfg.changeRules
  let stEv := updateState st evParams
  (stEv.1, if stateChanged then some stEv.2 else none)

/-- The filter behaviour claim C2 states, following the spec's words: an
action with no entry behaves like `never`, and any rule value outside the
six recognised ones — the empty string included — is treated as a
change. -/
def claimedHasStateChanged (currentState : ESState) (evParams : EventParams)
    (changeRules : ChangeRuleSet) : Bool :=
  let newState := ESState.fromEvent evParams
  if newState.action = "wakeup" then true
  else if currentState.action = "endgame" then true
  else
    match lookupParam changeRules newState.action with
    | none => false
    | some changeWhen =>
      if changeWhen = "never" then false
      else if changeWhen = "always" then true
      else if changeWhen = "action" then !(newState.action = currentState.action)
      else if changeWhen = "system" then !(newState.system = currentState.system)
      else if changeWhen = "game" then !(newState.game = currentState.game)
      else if changeWhen = "system/game" then
        !(newState.system = currentState.system ∧ newState.game = currentState.game)
      else true

/-- The state-change filter as claim C2 must be amended: an explicitly
configured *empty* rule value also behaves like `never`; every other
unknown value is treated as a change. -/
def amendedHasStateChanged (currentState : ESState) (evParams : EventParams)
    (changeRules : ChangeRuleSet) : Bool :=
  let newState := ESState.fromEvent evParams
  if newState.action = "wakeup" then true
  else if currentState.action = "endgame" then true
  else
    match lookupParam changeRules newState.action with
    | none => false
    | some changeWhen =>
      if changeWhen = "" ∨ changeWhen = "never" then false
      else if changeWhen = "always" then true
      else if changeWhen = "action" then !(newState.action = currentState.action)
      else if changeWhen = "system" then !(newState.system = currentState.system)
      else if changeWhen = "game" then !(newState.game = currentState.game)
      else if changeWhen = "system/game" then
        !(newState.system = currentState.system ∧ newState.game = currentState.game)
      else true

/-! ## `MQTTSubscriber` snapshot parsing -/

/-- Python `line.split('=', 1)` followed by unpacking into two variables:
`some (key, value)` splitting on the first `=`, or `none` when the line
contains no `=` (the unpacking raises `ValueError`). -/
def splitFirstEq (s : String) : Option (String × String) :=
  go [] s.data
where
  /-- Scan for the first `=`, accumulating the key in reverse. -/
  go (acc : List Char) : List Char → Option (String × String)
    | [] => none
    | '=' :: rest => some (⟨acc.reverse⟩, ⟨rest⟩)
    | c :: rest => go (c :: acc) rest

/-- The parsing loop of `MQTTSubscriber.getEventParams`: strip each line and
split it on the first `=`; a line with no `=` raises (`Except.error`),
aborting the whole parse. -/
def parseEventParams (rawState : List String) : Except Unit EventParams :=
  go rawState []
where
  /-- Process the remaining lines, carrying the params built so far. -/
  go : List String → EventParams → Except Unit EventParams
    | [], params => .ok params
    | line :: rest, params =>
      match splitFirstEq (pyStrip line) with
      | none => .error ()
      | some (k, v) => go rest (setParam params k v)

/-- `MQTTSubscriber._getEventParamsFromRemote`: `remoteFetch` stands for the
HTTP GET plus JSON decoding plus `["data"]["readFile"]` retrieval; any of
those failing is caught and yields `[]`, otherwise the body is split on
`\r\n`. -/
def getEventParamsFromRemote (remoteFetch : Except Unit String) : List String :=
  match remoteFetch with
  | .error _ => []
  | .ok body => splitCRLF body

/-- `MQTTSubscriber.getEventParams`: read the raw state lines (local file in
local mode — `localRead` stands for `open(...).readlines()`, whose failure
is not caught — or the remote route otherwise) and parse them. -/
def getEventParams (isLocal : Bool) (localRead : Except Unit (List String))
    (remoteFetch : Except Unit String) : Except Unit EventParams :=
  if isLocal then
    match localRead with
    | .error e => .error e
    | .ok lines => parseEventParams lines
  else
    parseEventParams (getEventParamsFromRemote remoteFetch)

/-- The behaviour claim C3 attributes to the parsing loop, following the
spec's words: a line with no `=` is skipped and the remaining lines are
still parsed. -/
def claimedParseEventParams (rawState : List String) : EventParams :=
  go rawState []
where
  /-- Process the remaining lines, skipping unparseable ones. -/
  go : List String → EventParams → EventParams
    | [], params => params
    | line :: rest, params =>
      match splitFirstEq (pyStrip line) with
      | none => go rest params
      | some (k, v) => go rest (setParam params k v)

/-- The behaviour claim C3 attributes to `getEventParams`, following the
spec's words: every snapshot-read failure, in either mode, returns an empty
mapping rather than raising. -/
def claimedGetEventParams (isLocal : Bool) (localRead : Except Unit (List String))
    (remoteFetch : Except Unit String) : EventParams :=
  if isLocal then
    match localRead with
    | .error _ => []
    | .ok lines => claimedParseEventParams lines
  else
    match remoteFetch with
    | .error _ => []
    | .ok body => claimedParseEventParams (splitCRLF body)

/-! ## `MediaManager` -/

/-- The `[media]` config options used by `MediaManager`, plus the per-action
precedence-rule entries (`rules`, with `defaultRule` the mandatory
`default` entry). -/
structure MediaConfig where
  mediaPath : String := ""
  defaultImage : String := "default.png"
  rules : List (String × String) := []
  defaultRule : String := ""

/-- `os.path.basename`: the part of the path after the last `/`. -/
def basenameChars (l : List Char) : List Char :=
  ((l.reverse.takeWhile (fun c => ¬ c = '/'))).reverse

/-- `os.path.splitext(name)[0]` for a name with no `/`: remove the last
extension; a run of leading dots never starts an extension. -/
def splitextStem (l : List Char) : List Char :=
  match l.reverse.findIdx? (fun c => c = '.') with
  | none => l
  | some k =>
    let idx := l.length - 1 - k
    if (l.take idx).any (fun c => ¬ c = '.') then l.take idx else l

/-- `os.path.splitext(os.path.basename(path))[0]` as used to compute
`gameBasename` from `GamePath`. -/
def gameBasenameOf (gamePath : String) : String :=
  ⟨splitextStem (basenameChars gamePath.data)⟩

/-- The keys of `MediaManager._GLOB_PATTERNS`. -/
def globPatternKeys : List String :=
  ["rom", "publisher", "genre", "system", "generic", "screensaver", "startup"]

/-- `MediaManager._GLOB_PATTERNS[searchTerm].format(...)`: the glob
template of a recognised pattern search term with the event values
substituted. -/
def globPatternFor (searchTerm gameBasename systemId publisher genre : String) :
    String :=
  if searchTerm = "rom" then systemId ++ "/" ++ gameBasename ++ ".*"
  else if searchTerm = "publisher" then "publisher/" ++ publisher ++ ".*"
  else if searchTerm = "genre" then "genre/" ++ genre ++ ".*"
  else if searchTerm = "system" then "system/" ++ systemId ++ ".*"
  else if searchTerm = "generic" then "generic/*"
  else if searchTerm = "screensaver" then "screensaver/*"
  else "startup/*"

/-- `_upperOrLowerChar`: an alphabetic character becomes the two-character
class of its lower- and upper-case forms; any other character is kept. -/
def upperOrLowerChar (c : Char) : List Char :=
  if pyIsAlpha c then ['[', pyToLower c, pyToUpper c, ']'] else [c]

/-- `pattern.replace('[', '[[]')`: escape every opening square bracket. -/
def escapeOpenBracket (l : List Char) : List Char :=
  l.flatMap (fun c => if c = '[' then ['[', '[', ']'] else [c])

/-- `MediaManager._caseInsensitiveGlobPattern` on characters: escape `[`
first, then replace each character by its case-insensitive form. -/
def ciGlobPattern (l : List Char) : List Char :=
  (escapeOpenBracket l).flatMap upperOrLowerChar

/-- `MediaManager._caseInsensitiveGlobPattern`. -/
def caseInsensitiveGlobPattern (pattern : String) : String :=
  ⟨ciGlobPattern pattern.data⟩

/-- `MediaManager._getMediaMatching`: make the glob pattern
case-insensitive and enumerate matching files under the media directory.
The filesystem (`glob.glob`) is the oracle `fs` from full glob patterns to
file lists. -/
def getMediaMatching (fs : String → List String) (cfg : MediaConfig)
    (globPattern : String) : List String :=
  fs (cfg.mediaPath ++ "/" ++ caseInsensitiveGlobPattern globPattern)

/-- `MediaManager._getMediaForSearchTerm`: media for one (sub)term.
`scraped` returns the `ImagePath` singleton when non-empty; unrecognised
terms contribute nothing (a warning is logged); pattern terms expand their
glob template and enumerate matches. -/
def getMediaForSearchTerm (fs : String → List String) (cfg : MediaConfig)
    (searchTerm : String) (evParams : EventParams) : List String :=
  if searchTerm = "scraped" then
    let imagePath := getParam evParams "ImagePath"
    if imagePath = "" then [] else [imagePath]
  else if ¬ searchTerm ∈ globPatternKeys then []
  else
    let gameBasename := gameBasenameOf (getParam evParams "GamePath")
    let globPattern := globPatternFor searchTerm gameBasename
      (pyLowerStr (getParam evParams "SystemId"))
      (pyLowerStr (getParam evParams "Publisher"))
      (pyLowerStr (getParam evParams "Genre"))
    getMediaMatching fs cfg globPattern

/-- `MediaManager._getPrecedenceRule`: the action's precedence rule from
config (falling back to the `default` rule), split on whitespace. -/
def getPrecedenceRule (cfg : MediaConfig) (action : String) : List String :=
  pySplit (getParamD cfg.rules action cfg.defaultRule)

/-- The search loop of `MediaManager.getMedia` over the precedence rule's
terms: `blank` blanks the display; a term's subterms (split on `+`) have
their media concatenated; the first term with matches wins; exhaustion
falls back to the default image. -/
def getMediaFromRule (fs : String → List String) (cfg : MediaConfig)
    (evParams : EventParams) : List String → List String
  | [] => [cfg.mediaPath ++ "/" ++ cfg.defaultImage]
  | searchTerm :: rest =>
    if searchTerm = "blank" then []
    else
      let files := (splitOnChar '+' searchTerm).flatMap
        (fun subTerm => getMediaForSearchTerm fs cfg subTerm evParams)
      if files.isEmpty then getMediaFromRule fs cfg evParams rest else files

/-- `MediaManager.getMedia`. -/
def getMedia (fs : String → List String) (cfg : MediaConfig)
    (evParams : EventParams) : List String :=
  getMediaFromRule fs cfg evParams
    (getPrecedenceRule cfg (getParam evParams "Action"))

/-! ## A model of `glob`/`fnmatch` pattern matching

The Python `glob` library is an external collaborator; this model covers
the constructs appearing in the patterns `_caseInsensitiveGlobPattern`
produces from the templates: literals, `*`, `?`, and bracket classes of
literal members (with `!` negation and the leading-`]`-is-literal rule,
and an unterminated `[` matched literally, as in `fnmatch`). -/

/-- Scan a bracket class body up to the closing `]`, returning the member
characters and the remaining pattern; a `]` in first position
(`first = true`) is a literal member, as in `fnmatch`. -/
def classScan : (first : Bool) → (cs : List Char) → Option (List Char × {r : List Char // r.length < cs.length})
  | _, [] => none
  | first, c :: rest =>
    if c = ']' ∧ first = false then some ([], ⟨rest, by simp⟩)
    else
      match classScan false rest with
      | none => none
      | some (m, rr) => some (c :: m, ⟨rr.1, by have := rr.2; simp; omega⟩)

/-- Parse a bracket class after the opening `[`: optional `!` negation,
then the member characters. -/
def parseClass (cs : List Char) :
    Option (Bool × List Char × {r : List Char // r.length < cs.length}) :=
  match cs with
  | [] => none
  | c :: tl =>
    if c = '!' then
      match classScan true tl with
      | none => none
      | some (m, rr) => some (true, m, ⟨rr.1, by have := rr.2; simp; omega⟩)
    else
      match classScan true (c :: tl) with
      | none => none
      | some (m, rr) => some (false, m, rr)

/-- Glob matching of a pattern against a name: `*` matches any run, `?`
any single character, a bracket class any member character (any
non-member when negated), an unterminated `[` itself, and any other
pattern character itself. -/
def globMatch : (p : List Char) → (s : List Char) → Bool
  | [], s => s.isEmpty
  | pc :: ps, s =>
    if pc = '*' then
      globMatch ps s ||
        (match s with
         | [] => false
         | _ :: ss => globMatch (pc :: ps) ss)
    else if pc = '?' then
      (match s with
       | [] => false
       | _ :: ss => globMatch ps ss)
    else if pc = '[' then
      (match parseClass ps with
       | some (neg, members, rest) =>
         match s with
         | [] => false
         | d :: ss => (neg != members.contains d) && globMatch rest.1 ss
       | none =>
         match s with
         | [] => false
         | d :: ss => (d = '[') && globMatch ps ss)
    else
      (match s with
       | [] => false
       | d :: ss => (d = pc) && globMatch ps ss)
termination_by p s => (p.length, s.length)

/-- One character of a case variant: equal, or the same letter in the
other case. -/
def caseEqB (c d : Char) : Bool :=
  d = c || (pyIsAlpha c && (d = pyToLower c || d = pyToUpper c))

/-- `f` is an ASCII-case variant of `g`: the same characters up to letter
case. -/
def caseVariant : List Char → List Char → Bool
  | [], [] => true
  | c :: cs, d :: ds => caseEqB c d && caseVariant cs ds
  | _, _ => false

/-! ## `Slideshow` -/

/-- `Slideshow.setMedia`: the media set actually enqueued: duplicates
removed (`list(set(...))`) and sorted — extensionally, the sorted list of
the distinct elements of the input. -/
def setMedia (mediaPaths : List String) : List String :=
  (mediaPaths.dedup).mergeSort (fun a b => decide (a ≤ b))

/-- `s.format(file=v)` for templates whose only placeholder is `{file}`:
replace each occurrence by `v`, without rescanning the substituted text. -/
def replaceFile (v : List Char) : List Char → List Char
  | '{' :: 'f' :: 'i' :: 'l' :: 'e' :: '}' :: rest => v ++ replaceFile v rest
  | c :: cs => c :: replaceFile v cs
  | [] => []

/-- The lazy body of the regex alternative `".+?"` strictly after its first
character: the characters before the first `"`, none of which may be a
newline (`.` does not match newlines), and the rest after the closing
quote. -/
def lazyBody : (cs : List Char) → Option (List Char × {r : List Char // r.length < cs.length})
  | [] => none
  | c :: r =>
    if c = '"' then some ([], ⟨r, by simp⟩)
    else if c = '\n' then none
    else
      match lazyBody r with
      | none => none
      | some (b, rr) => some (c :: b, ⟨rr.1, by have := rr.2; simp; omega⟩)

/-- Match the regex fragment `.+?"` lazily against `cs` (the characters
after the opening quote): at least one body character, closing at the
first possible quote. -/
def lazyQuote (cs : List Char) : Option (List Char × {r : List Char // r.length < cs.length}) :=
  match cs with
  | [] => none
  | c0 :: rest =>
    if c0 = '\n' then none
    else
      match lazyBody rest with
      | none => none
      | some (b, rr) => some (c0 :: b, ⟨rr.1, by have := rr.2; simp; omega⟩)

/-- `re.findall(r'[^"\s]\S*|".+?"', s)`: scan left to right; at each
position a token is either a non-quote non-space character followed by a
maximal run of non-space characters, or a double-quoted run; unmatched
characters are skipped. -/
def reFindAll : (s : List Char) → List (List Char)
  | [] => []
  | c :: cs =>
    if pyIsSpace c then reFindAll cs
    else if c = '"' then
      match lazyQuote cs with
      | some (b, rest) => ('"' :: (b ++ ['"'])) :: reFindAll rest.1
      | none => reFindAll cs
    else
      (c :: cs.takeWhile (fun x => ¬ pyIsSpace x)) ::
        reFindAll (cs.dropWhile (fun x => ¬ pyIsSpace x))
termination_by s => s.length
decreasing_by
  · simp
  · have := rest.2; simp; omega
  · simp
  · simp
    exact Nat.lt_succ_of_le ((List.dropWhile_sublist _).length_le)

/-- Python `tok.strip('"')`: remove every leading and trailing double
quote. -/
def stripQuotes (l : List Char) : List Char :=
  ((l.dropWhile (fun c => c = '"')).reverse.dropWhile (fun c => c = '"')).reverse

/-- `Slideshow._getCmdList` at a call site passing `file=...`: wrap the
path in double quotes, substitute `{file}` in both the command and the
opts, then tokenize the opts keeping quoted runs intact and stripping
their quotes. -/
def getCmdList (cmd cmdOpts file : String) : List String :=
  let fileQuoted : List Char := '"' :: (file.data ++ ['"'])
  let cmdFormatted := replaceFile fileQuoted cmd.data
  let optsFormatted := replaceFile fileQuoted cmdOpts.data
  (⟨cmdFormatted⟩ : String) ::
    (reFindAll optsFormatted).map (fun t => (⟨stripQuotes t⟩ : String))

/-! ## Claim C2 — state-change filter semantics -/

/-- C2, counterexample: with the rule set `{rungame ↦ ""}` (an explicitly
configured empty rule value) and an incoming `rungame` event, the code
reports *no* change, while the claim's reading — empty string is not one
of the six recognised values, hence "unknown rule value is treated as
change" — reports a change. -/
theorem C2_counterexample :
    hasStateChanged {} [("Action", "rungame")] [("rungame", "")] = false ∧
    claimedHasStateChanged {} [("Action", "rungame")] [("rungame", "")] = true := by
  constructor
  · decide
  · decide

/-- C2, amended: the state-change filter returns `changed` if the new
action is `wakeup`; else `changed` if the previous action is `endgame`;
else it consults the per-action rule: no entry, an empty value, or
`never` gives no change, `always` gives change, `action`/`system`/`game`/
`system/game` compare the respective fields, and any other unknown rule
value is treated as change. -/
theorem C2_filter_semantics (currentState : ESState) (evParams : EventParams)
    (changeRules : ChangeRuleSet) :
    hasStateChanged currentState evParams changeRules =
      amendedHasStateChanged currentState evParams changeRules := by
  unfold hasStateChanged amendedHasStateChanged getParamD
  cases h : lookupParam changeRules (ESState.fromEvent evParams).action <;>
    simp [h]

/-! ## Claim C1 — sleep/wake round-trip -/

/-- `_updateState` on an event that is neither `sleep` nor `wakeup`:
remember the event params, derive the new state, keep `stateBeforeSleep`. -/
theorem updateState_ordinary (st : HandlerState) (ev : EventParams)
    (hs : ¬ getParam ev "Action" = "sleep")
    (hw : ¬ getParam ev "Action" = "wakeup") :
    updateState st ev =
      ({ currentState := ESState.fromEvent ev, previousEvParams := ev,
         stateBeforeSleep := st.stateBeforeSleep }, ev) := by
  simp [updateState, hs, hw]

/-- `_updateState` on a `sleep` event: snapshot the current state into
`stateBeforeSleep`, keep the previous params, derive the new state. -/
theorem updateState_sleep (st : HandlerState) (ev : EventParams)
    (hs : getParam ev "Action" = "sleep") :
    updateState st ev =
      ({ currentState := ESState.fromEvent ev,
         previousEvParams := st.previousEvParams,
         stateBeforeSleep := st.currentState }, ev) := by
  simp [updateState, hs]

/-- `_updateState` on a `wakeup` event: restore both the state and the
event params recorded before the last sleep. -/
theorem updateState_wakeup (st : HandlerState) (ev : EventParams)
    (hw : getParam ev "Action" = "wakeup") :
    updateState st ev =
      ({ currentState := st.stateBeforeSleep,
         previousEvParams := st.previousEvParams,
         stateBeforeSleep := st.stateBeforeSleep }, st.previousEvParams) := by
  simp [updateState, hw]

/-- `_handleEvent` with the arcade meta-system disabled: no parameter
rewriting happens; the resolver is queried with `_updateState`'s result
exactly when the filter reports a change. -/
theorem handleEvent_arcade_disabled (cfg : HandlerConfig) (st : HandlerState)
    (ev : EventParams) (h : cfg.arcadeSystemEnabled = false) :
    handleEvent cfg st ev =
      ((updateState st ev).1,
        if hasStateChanged st.currentState ev cfg.changeRules then
          some (updateState st ev).2
        else none) := by
  simp [handleEvent, h]

/-- A `wakeup` event always passes the state-change filter. -/
theorem hasStateChanged_wakeup (cur : ESState) (ev : EventParams)
    (rules : ChangeRuleSet) (hw : getParam ev "Action" = "wakeup") :
    hasStateChanged cur ev rules = true := by
  simp [hasStateChanged, ESState.fromEvent, hw]

/-- C1 (confirmed): handling `(a1, sleep, wakeup)`, where `a1`'s action is
neither `sleep` nor `wakeup` and the arcade remap is disabled, queries the
media resolver after `wakeup` with exactly `a1`'s params, and leaves
`currentState` equal to the state derived from `a1`'s params. -/
theorem C1_sleep_wake_roundtrip (cfg : HandlerConfig) (st0 : HandlerState)
    (p1 p2 p3 : EventParams)
    (hcfg : cfg.arcadeSystemEnabled = false)
    (h1s : ¬ getParam p1 "Action" = "sleep")
    (h1w : ¬ getParam p1 "Action" = "wakeup")
    (h2 : getParam p2 "Action" = "sleep")
    (h3 : getParam p3 "Action" = "wakeup") :
    (handleEvent cfg ((handleEvent cfg ((handleEvent cfg st0 p1).1) p2).1) p3).2
        = some p1 ∧
    (handleEvent cfg ((handleEvent cfg ((handleEvent cfg st0 p1).1) p2).1) p3).1.currentState
        = ESState.fromEvent p1 := by
  have s1 : (handleEvent cfg st0 p1).1 =
      { currentState := ESState.fromEvent p1, previousEvParams := p1,
        stateBeforeSleep := st0.stateBeforeSleep } := by
    rw [handleEvent_arcade_disabled cfg st0 p1 hcfg,
      updateState_ordinary st0 p1 h1s h1w]
  have s2 : (handleEvent cfg ((handleEvent cfg st0 p1).1) p2).1 =
      { currentState := ESState.fromEvent p2, previousEvParams := p1,
        stateBeforeSleep := ESState.fromEvent p1 } := by
    rw [s1, handleEvent_arcade_disabled cfg _ p2 hcfg, updateState_sleep _ p2 h2]
  rw [s2, handleEvent_arcade_disabled cfg _ p3 hcfg, updateState_wakeup _ p3 h3,
    hasStateChanged_wakeup _ p3 cfg.changeRules h3]
  exact ⟨rfl, rfl⟩

/-- C1, witness: the round-trip at a concrete event sequence. -/
theorem C1_sleep_wake_roundtrip_witness :
    (handleEvent {} ((handleEvent {} ((handleEvent {} {}
        [("Action", "rungame"), ("SystemId", "snes")]).1)
        [("Action", "sleep")]).1) [("Action", "wakeup")]).2
      = some [("Action", "rungame"), ("SystemId", "snes")] ∧
    (handleEvent {} ((handleEvent {} ((handleEvent {} {}
        [("Action", "rungame"), ("SystemId", "snes")]).1)
        [("Action", "sleep")]).1) [("Action", "wakeup")]).1.currentState
      = ESState.fromEvent [("Action", "rungame"), ("SystemId", "snes")] :=
  C1_sleep_wake_roundtrip {} {} _ _ _ rfl (by decide) (by decide) (by decide)
    (by decide)

/-! ## Claim C4 — arcade meta-system remap -/

/-- `charsPrefix` decides list-prefix. -/
theorem charsPrefix_iff (a b : List Char) : charsPrefix a b = true ↔ a <+: b := by
  induction a generalizing b with
  | nil => simp [charsPrefix]
  | cons c cs ih =>
    cases b with
    | nil => simp [charsPrefix]
    | cons d ds => simp [charsPrefix, ih, List.cons_prefix_cons]

/-- The scan of `strContains` decides list-infix. -/
theorem strContains_go_iff (needle hay : List Char) :
    strContains.go needle hay = true ↔ needle <:+: hay := by
  induction hay with
  | nil => simp [strContains.go, List.isEmpty_iff]
  | cons c rest ih =>
    simp [strContains.go, charsPrefix_iff, ih, List.infix_cons_iff]

/-- `strContains` decides Python substring containment. -/
theorem strContains_iff (hay needle : String) :
    strContains hay needle = true ↔ needle.data <:+: hay.data := by
  simp [strContains, strContains_go_iff]

/-- An infix of `r` is an infix of `x ++ r`. -/
theorem infix_append_right_of_infix {l r x : List Char} (h : l <:+: r) :
    l <:+: x ++ r := by
  obtain ⟨s, t, hst⟩ := h
  exact ⟨x ++ s, t, by rw [← hst]; simp⟩

/-- Every field produced by `pySplitAux cs acc` is an infix of
`acc.reverse ++ cs`. -/
theorem mem_pySplitAux_infix :
    ∀ (cs acc l : List Char), l ∈ pySplitAux cs acc → l <:+: (acc.reverse ++ cs)
  | [], acc, l => by
    intro h
    simp only [pySplitAux] at h
    split at h
    · simp at h
    · simp at h
      exact h ▸ ⟨[], [], by simp⟩
  | c :: cs, acc, l => by
    intro h
    simp only [pySplitAux] at h
    split at h
    · split at h
      · have := mem_pySplitAux_infix cs [] l h
        simp at this
        exact infix_append_right_of_infix (List.infix_cons this)
      · rcases List.mem_cons.mp h with h' | h'
        · exact h' ▸ ⟨[], c :: cs, by simp⟩
        · have := mem_pySplitAux_infix cs [] l h'
          simp at this
          exact infix_append_right_of_infix (List.infix_cons this)
    · have := mem_pySplitAux_infix cs (c :: acc) l h
      simpa [List.append_assoc] using this

/-- Every field of `pySplit as` is a substring of `as` in the sense of
Python's `in` operator. -/
theorem mem_pySplit_strContains (as s : String) (h : s ∈ pySplit as) :
    strContains as s = true := by
  simp only [pySplit, List.mem_map] at h
  obtain ⟨l, hl, rfl⟩ := h
  have := mem_pySplitAux_infix as.data [] l hl
  simp at this
  exact (strContains_iff as ⟨l⟩).mpr this

/-- C4, counterexample: with `arcade_systems = "fbneo mame"`, the event
`SystemId = "ame"` — a proper substring of the listed id `mame`, *not* an
element of the list — is nevertheless rewritten to `arcade`, because the
code tests `systemId in self._arcadeSystems` on the raw config string. -/
theorem C4_counterexample :
    convertArcadeSystems true "fbneo mame" [("SystemId", "ame")]
        = [("SystemId", "arcade")] ∧
    ¬ "ame" ∈ pySplit "fbneo mame" := by
  constructor
  · decide
  · decide

/-- C4, amended: with the feature enabled, `SystemId` is rewritten to
`arcade` iff it is non-empty and a substring of the raw whitespace-joined
`arcade_systems` config string; in particular every id that is an element
of the configured list is remapped, but so is any other substring (such as
a proper substring of a listed id); with the feature disabled nothing
changes. -/
theorem C4_arcade_remap (arcadeSystems : String) (ev : EventParams) :
    (¬ getParam ev "SystemId" = "" →
      strContains arcadeSystems (getParam ev "SystemId") = true →
      convertArcadeSystems true arcadeSystems ev = setParam ev "SystemId" "arcade") ∧
    (¬ getParam ev "SystemId" = "" →
      getParam ev "SystemId" ∈ pySplit arcadeSystems →
      convertArcadeSystems true arcadeSystems ev = setParam ev "SystemId" "arcade") ∧
    (strContains arcadeSystems (getParam ev "SystemId") = false →
      convertArcadeSystems true arcadeSystems ev = ev) ∧
    (getParam ev "SystemId" = "" →
      convertArcadeSystems true arcadeSystems ev = ev) ∧
    (convertArcadeSystems false arcadeSystems ev = ev) := by
  refine ⟨fun hne hsub => ?_, fun hne hmem => ?_, fun hno => ?_, fun he => ?_, ?_⟩
  · simp [convertArcadeSystems, hne, hsub]
  · simp [convertArcadeSystems, hne, mem_pySplit_strContains arcadeSystems _ hmem]
  · simp [convertArcadeSystems, hno]
  · simp [convertArcadeSystems, he]
  · simp [convertArcadeSystems]

/-- C4, witness: a listed arcade id is remapped. -/
theorem C4_arcade_remap_witness :
    convertArcadeSystems true "fbneo mame" [("SystemId", "mame")]
      = [("SystemId", "arcade")] := by
  have h := (C4_arcade_remap "fbneo mame" [("SystemId", "mame")]).2.1
    (by decide) (by decide)
  rw [h]
  decide

/-! ## Claim C3 — snapshot failure semantics -/

/-- If any line lacks an `=`, the parsing loop raises (no skipping). -/
theorem parseEventParams_go_error (lines : List String) (params : EventParams)
    (h : ∃ l ∈ lines, splitFirstEq (pyStrip l) = none) :
    parseEventParams.go lines params = .error () := by
  induction lines generalizing params with
  | nil => simp at h
  | cons l rest ih =>
    rcases h with ⟨l', hl', hnone⟩
    rcases List.mem_cons.mp hl' with rfl | hmem
    · simp [parseEventParams.go, hnone]
    · cases hsplit : splitFirstEq (pyStrip l) with
      | none => simp [parseEventParams.go, hsplit]
      | some kv =>
        simp [parseEventParams.go, hsplit]
        exact ih _ ⟨l', hmem, hnone⟩

/-- C3, counterexample: in local mode a failing file read propagates the
exception instead of returning an empty mapping, and a line without `=`
raises `ValueError` instead of being skipped — at these inputs the code
diverges from the claimed behaviour (`claimedGetEventParams`). -/
theorem C3_counterexample :
    getEventParams true (.error ()) (.ok "") = .error () ∧
    claimedGetEventParams true (.error ()) (.ok "") = [] ∧
    getEventParams true (.ok ["garbage", "A=1"]) (.ok "") = .error () ∧
    claimedGetEventParams true (.ok ["garbage", "A=1"]) (.ok "") = [("A", "1")] ∧
    ¬ getEventParams true (.ok ["garbage", "A=1"]) (.ok "")
        = .ok [("A", "1")] := by
  refine ⟨rfl, rfl, rfl, rfl, fun h => ?_⟩
  rw [show getEventParams true (.ok ["garbage", "A=1"]) (.ok "")
      = .error () from rfl] at h
  exact Except.noConfusion h

/-- C3, amended: only *remote* snapshot-read failures (HTTP error,
malformed JSON, missing JSON key) return an empty mapping; a local file
read failure propagates its exception; and in either mode a line that
cannot be split as `key=value` (no `=`) raises `ValueError`, aborting the
whole parse rather than being skipped. -/
theorem C3_snapshot_failures (localRead : Except Unit (List String))
    (remoteFetch : Except Unit String) (lines : List String) :
    (getEventParams false localRead (.error ()) = .ok []) ∧
    (getEventParams true (.error ()) remoteFetch = .error ()) ∧
    ((∃ l ∈ lines, splitFirstEq (pyStrip l) = none) →
      parseEventParams lines = .error ()) ∧
    (getEventParams true (.ok lines) remoteFetch = parseEventParams lines) := by
  refine ⟨rfl, rfl, fun h => ?_, rfl⟩
  exact parseEventParams_go_error lines [] h

/-- C3, witness: a concrete `=`-less line aborts the parse. -/
theorem C3_snapshot_failures_witness :
    parseEventParams ["Action", "A=1"] = .error () :=
  (C3_snapshot_failures (.ok []) (.ok "") ["Action", "A=1"]).2.2.1
    ⟨"Action", by decide, by decide⟩

/-! ## Claims C5, C7, C10 — media resolver rule evaluation -/

/-- One step of the precedence-rule loop for a non-`blank` term. -/
theorem getMediaFromRule_cons (fs : String → List String) (cfg : MediaConfig)
    (ev : EventParams) (t : String) (rest : List String) (hb : ¬ t = "blank") :
    getMediaFromRule fs cfg ev (t :: rest) =
      (if ((splitOnChar '+' t).flatMap
            fun sub => getMediaForSearchTerm fs cfg sub ev).isEmpty then
        getMediaFromRule fs cfg ev rest
      else
        (splitOnChar '+' t).flatMap fun sub => getMediaForSearchTerm fs cfg sub ev) := by
  simp [getMediaFromRule, hb]

/-- C5 (confirmed): when every term of the precedence rule chosen for the
event's action is not `blank` and yields no media (its subterm
concatenation is empty), `getMedia` returns exactly the singleton
`[media_path/default_image]`. -/
theorem C5_last_resort (fs : String → List String) (cfg : MediaConfig)
    (ev : EventParams)
    (h : ∀ t ∈ getPrecedenceRule cfg (getParam ev "Action"), ¬ t = "blank" ∧
      ((splitOnChar '+' t).flatMap fun sub => getMediaForSearchTerm fs cfg sub ev) = []) :
    getMedia fs cfg ev = [cfg.mediaPath ++ "/" ++ cfg.defaultImage] := by
  rw [getMedia]
  revert h
  induction getPrecedenceRule cfg (getParam ev "Action") with
  | nil => intro _; rfl
  | cons t rest ih =>
    intro h
    obtain ⟨hb, hempty⟩ := h t (List.mem_cons_self t rest)
    rw [getMediaFromRule_cons fs cfg ev t rest hb, hempty]
    exact ih fun t' ht' => h t' (List.mem_cons_of_mem t ht')

/-- C5, witness: a filesystem with no matches falls back to the default
image. -/
theorem C5_last_resort_witness :
    getMedia (fun _ => [])
      { mediaPath := "/media", defaultImage := "default.png",
        rules := [("rungame", "rom publisher")], defaultRule := "generic" }
      [("Action", "rungame")] = ["/media/default.png"] :=
  C5_last_resort (fun _ => [])
    { mediaPath := "/media", defaultImage := "default.png",
      rules := [("rungame", "rom publisher")], defaultRule := "generic" }
    [("Action", "rungame")] (by decide)

/-- C7 (confirmed): a compound term (one containing `+`) is evaluated by
concatenating, in subterm order, the media of each `+`-separated subterm;
a non-empty concatenation is returned as the result, an empty one makes
evaluation continue with the remaining terms of the rule. -/
theorem C7_compound_terms (fs : String → List String) (cfg : MediaConfig)
    (ev : EventParams) (t : String) (rest : List String)
    (hplus : '+' ∈ t.data) :
    (¬ ((splitOnChar '+' t).flatMap fun sub => getMediaForSearchTerm fs cfg sub ev) = [] →
      getMediaFromRule fs cfg ev (t :: rest) =
        (splitOnChar '+' t).flatMap fun sub => getMediaForSearchTerm fs cfg sub ev) ∧
    (((splitOnChar '+' t).flatMap fun sub => getMediaForSearchTerm fs cfg sub ev) = [] →
      getMediaFromRule fs cfg ev (t :: rest) = getMediaFromRule fs cfg ev rest) := by
  have hb : ¬ t = "blank" := by
    intro hEq
    rw [hEq] at hplus
    exact absurd hplus (by decide)
  constructor
  · intro hne
    rw [getMediaFromRule_cons fs cfg ev t rest hb,
      if_neg (by simpa [List.isEmpty_iff] using hne)]
  · intro he
    rw [getMediaFromRule_cons fs cfg ev t rest hb, he]
    rfl

/-- C7, witness: `rom+publisher` with both subterms matching returns the
concatenation in subterm order. -/
theorem C7_compound_terms_witness :
    getMediaFromRule (fun _ => ["/m/x.png"])
      { mediaPath := "/m", defaultImage := "d.png" } [] ["rom+publisher"]
      = ["/m/x.png", "/m/x.png"] := by
  have h := (C7_compound_terms (fun _ => ["/m/x.png"])
    { mediaPath := "/m", defaultImage := "d.png" } [] "rom+publisher" []
    (by decide)).1 (by decide)
  rw [h]
  decide

/-- C10 (confirmed): inside a compound term, a `blank` subterm is handled
as an unrecognised search term contributing no files, and evaluation
continues: the compound term never makes `getMedia` return the empty
(blank-display) set — an empty overall result can only come from the
remaining terms. -/
theorem C10_blank_subterm (fs : String → List String) (cfg : MediaConfig)
    (ev : EventParams) (t : String) (rest : List String)
    (hplus : '+' ∈ t.data) (hmem : "blank" ∈ splitOnChar '+' t) :
    getMediaForSearchTerm fs cfg "blank" ev = [] ∧
    (getMediaFromRule fs cfg ev (t :: rest) = [] →
      getMediaFromRule fs cfg ev (t :: rest) = getMediaFromRule fs cfg ev rest) ∧
    (((splitOnChar '+' t).flatMap fun sub => getMediaForSearchTerm fs cfg sub ev) = [] →
      getMediaFromRule fs cfg ev (t :: rest) = getMediaFromRule fs cfg ev rest) := by
  have hb : ¬ t = "blank" := by
    intro hEq
    rw [hEq] at hplus
    exact absurd hplus (by decide)
  have hblank : getMediaForSearchTerm fs cfg "blank" ev = [] := by
    rw [getMediaForSearchTerm, if_neg (by decide), if_pos (by decide)]
  refine ⟨hblank, fun hnil => ?_, fun he => ?_⟩
  · by_cases hf : ((splitOnChar '+' t).flatMap
        fun sub => getMediaForSearchTerm fs cfg sub ev) = []
    · rw [getMediaFromRule_cons fs cfg ev t rest hb, hf]
      rfl
    · rw [getMediaFromRule_cons fs cfg ev t rest hb,
        if_neg (by simpa [List.isEmpty_iff] using hf)] at hnil
      exact absurd hnil hf
  · rw [getMediaFromRule_cons fs cfg ev t rest hb, he]
    rfl

/-- C10, witness: `rom+blank` with no rom matches falls through to the
next term instead of blanking the display. -/
theorem C10_blank_subterm_witness :
    getMediaFromRule (fun _ => [])
      { mediaPath := "/m", defaultImage := "d.png" } [] ["rom+blank", "generic"]
      = getMediaFromRule (fun _ => [])
          { mediaPath := "/m", defaultImage := "d.png" } [] ["generic"] :=
  (C10_blank_subterm (fun _ => [])
    { mediaPath := "/m", defaultImage := "d.png" } [] "rom+blank" ["generic"]
    (by decide) (by decide)).2.2 (by decide)

/-! ## Claim C6 — media-set canonicalization -/

/-- C6 (confirmed): `setMedia` enqueues the sorted deduplication of its
input: enqueueing `L` and enqueueing `sort(dedup(L))` enqueue the same
set, and every enqueued set is duplicate-free and sorted. -/
theorem C6_canonicalization (L : List String) :
    setMedia L = setMedia (List.mergeSort L.dedup (fun a b => decide (a ≤ b))) ∧
    (setMedia L).Nodup ∧
    List.Sorted (· ≤ ·) (setMedia L) := by
  have trans : ∀ (a b c : String),
      decide (a ≤ b) = true → decide (b ≤ c) = true → decide (a ≤ c) = true := by
    intro a b c hab hbc
    simp only [decide_eq_true_eq] at *
    exact le_trans hab hbc
  have total : ∀ (a b : String), (decide (a ≤ b) || decide (b ≤ a)) = true := by
    intro a b
    simpa using le_total a b
  have hpairwise : (List.mergeSort L.dedup (fun a b => decide (a ≤ b))).Pairwise
      (fun a b => decide (a ≤ b) = true) :=
    List.sorted_mergeSort trans total L.dedup
  have hnodup : (List.mergeSort L.dedup (fun a b => decide (a ≤ b))).Nodup :=
    (List.mergeSort_perm L.dedup _).nodup_iff.mpr (List.nodup_dedup L)
  refine ⟨?_, hnodup, ?_⟩
  · calc
      setMedia L = List.mergeSort L.dedup (fun a b => decide (a ≤ b)) := rfl
      _ = List.mergeSort (List.mergeSort L.dedup (fun a b => decide (a ≤ b)))
            (fun a b => decide (a ≤ b)) :=
        (List.mergeSort_of_sorted hpairwise).symm
      _ = List.mergeSort
            (List.mergeSort L.dedup (fun a b => decide (a ≤ b))).dedup
            (fun a b => decide (a ≤ b)) := by
        rw [List.dedup_eq_self.mpr hnodup]
      _ = setMedia (List.mergeSort L.dedup (fun a b => decide (a ≤ b))) := rfl
  · exact hpairwise.imp fun h => by simpa using h

/-! ## Claim C9 — command templating -/

/-- `replaceFile` copies any character that does not open the
placeholder. -/
theorem replaceFile_cons_ne (v : List Char) (c : Char) (cs : List Char)
    (h : ¬ c = '{') : replaceFile v (c :: cs) = c :: replaceFile v cs := by
  simp [replaceFile, h]

/-- `replaceFile` at the placeholder substitutes the value and continues
behind it. -/
theorem replaceFile_placeholder_cons (v rest : List Char) :
    replaceFile v ('{' :: 'f' :: 'i' :: 'l' :: 'e' :: '}' :: rest) =
      v ++ replaceFile v rest := by
  simp [replaceFile]

/-- Substituting into the bare `{file}` placeholder yields the value. -/
theorem replaceFile_placeholder (v : List Char) :
    replaceFile v ['{', 'f', 'i', 'l', 'e', '}'] = v := by
  simp [replaceFile]

/-- A brace-free segment passes through `replaceFile` unchanged, and
substitution continues behind it. -/
theorem replaceFile_append_no_brace (v a b : List Char)
    (h : ∀ c ∈ a, ¬ c = '{') :
    replaceFile v (a ++ b) = a ++ replaceFile v b := by
  induction a with
  | nil => rfl
  | cons c cs ih =>
    rw [List.cons_append,
      replaceFile_cons_ne v c _ (h c (List.mem_cons_self c cs)),
      ih fun c' hc' => h c' (List.mem_cons_of_mem c hc'), List.cons_append]

/-- A brace-free list passes through `replaceFile` unchanged. -/
theorem replaceFile_no_brace (v l : List Char) (h : ∀ c ∈ l, ¬ c = '{') :
    replaceFile v l = l := by
  have h0 := replaceFile_append_no_brace v l [] h
  simpa [replaceFile] using h0

/-- Scanning `p ++ '"' :: rest` for the lazy close, where `p` contains no
quote and no newline, consumes exactly `p`. -/
theorem lazyBody_append_quote (p rest : List Char)
    (h : ∀ c ∈ p, ¬ c = '"' ∧ ¬ c = '\n') :
    ∃ pf, lazyBody (p ++ '"' :: rest) = some (p, ⟨rest, pf⟩) := by
  induction p with
  | nil => exact ⟨by simp, by simp [lazyBody]⟩
  | cons c cs ih =>
    obtain ⟨hq, hn⟩ := h c (List.mem_cons_self c cs)
    obtain ⟨pf, hpf⟩ := ih fun c' hc' => h c' (List.mem_cons_of_mem c hc')
    refine ⟨by simp only [List.length_append, List.length_cons]; omega, ?_⟩
    simp [lazyBody, hq, hn, hpf]

/-- A double-quoted run of quote-free, newline-free characters is one
token, and tokenization continues after the closing quote. -/
theorem reFindAll_quoted (p rest : List Char) (hne : ¬ p = [])
    (h : ∀ c ∈ p, ¬ c = '"' ∧ ¬ c = '\n') :
    reFindAll ('"' :: (p ++ '"' :: rest)) =
      ('"' :: (p ++ ['"'])) :: reFindAll rest := by
  cases p with
  | nil => exact absurd rfl hne
  | cons c0 cs =>
    obtain ⟨hq0, hn0⟩ := h c0 (List.mem_cons_self c0 cs)
    obtain ⟨pf, hlb⟩ := lazyBody_append_quote cs rest
      fun c' hc' => h c' (List.mem_cons_of_mem c0 hc')
    simp [reFindAll, lazyQuote, pyIsSpace, hq0, hn0, hlb]

/-- Stripping the quotes of a fully quoted token of quote-free characters
recovers the bare characters. -/
theorem stripQuotes_quoted (p : List Char) (h : ∀ c ∈ p, ¬ c = '"') :
    stripQuotes ('"' :: (p ++ ['"'])) = p := by
  have hnq : ∀ (l : List Char), (∀ c ∈ l, ¬ c = '"') →
      l.dropWhile (fun c => c = '"') = l := by
    intro l hl
    cases l with
    | nil => rfl
    | cons a l' =>
      exact List.dropWhile_cons_of_neg
        (by simpa using hl a (List.mem_cons_self a l'))
  cases p with
  | nil => rfl
  | cons c0 cs =>
    have hc0 : ¬ c0 = '"' := h c0 (List.mem_cons_self c0 cs)
    have hside : ∀ c ∈ cs.reverse ++ [c0], ¬ c = '"' := by
      intro c hc
      rcases List.mem_append.mp hc with hc | hc
      · exact h c (List.mem_cons_of_mem c0 (List.mem_reverse.mp hc))
      · rw [List.mem_singleton.mp hc]; exact hc0
    have h2 : List.dropWhile (fun c => decide (c = '"')) ((c0 :: cs) ++ ['"'])
        = (c0 :: cs) ++ ['"'] :=
      List.dropWhile_cons_of_neg (by simpa using hc0)
    unfold stripQuotes
    rw [List.dropWhile_cons_of_pos (by simp)]
    rw [h2]
    rw [show ((c0 :: cs) ++ ['"']).reverse = '"' :: (cs.reverse ++ [c0]) by simp]
    rw [List.dropWhile_cons_of_pos (by simp)]
    rw [hnq (cs.reverse ++ [c0]) hside]
    simp

/-- Tokenization of an empty opts string. -/
theorem reFindAll_nil : reFindAll [] = [] := by
  simp [reFindAll]

/-- Tokenization skips a whitespace character. -/
theorem reFindAll_space (c : Char) (l : List Char) (h : pyIsSpace c = true) :
    reFindAll (c :: l) = reFindAll l := by
  simp [reFindAll, h]

/-- Tokenization at a non-space, non-quote character takes that character
with the maximal following non-space run as one token. -/
theorem reFindAll_token (c : Char) (l : List Char) (hsp : pyIsSpace c = false)
    (hq : ¬ c = '"') :
    reFindAll (c :: l) =
      (c :: l.takeWhile (fun x => ¬ pyIsSpace x)) ::
        reFindAll (l.dropWhile (fun x => ¬ pyIsSpace x)) := by
  simp [reFindAll, hsp, hq]

/-- Bounded-depth version of `reFindAll_append_space`: a quote-free
segment followed by a space tokenizes independently of what follows. -/
theorem reFindAll_append_space_aux (n : Nat) : ∀ (xs ys : List Char),
    xs.length ≤ n → (∀ c ∈ xs, ¬ c = '"') →
    reFindAll (xs ++ ' ' :: ys) = reFindAll xs ++ reFindAll ys := by
  induction n with
  | zero =>
    intro xs ys hlen _
    have hx : xs = [] := List.eq_nil_of_length_eq_zero (Nat.le_zero.mp hlen)
    subst hx
    rw [List.nil_append, reFindAll_space ' ' ys (by decide), reFindAll_nil,
      List.nil_append]
  | succ n ih =>
    intro xs ys hlen hq
    cases xs with
    | nil =>
      rw [List.nil_append, reFindAll_space ' ' ys (by decide), reFindAll_nil,
        List.nil_append]
    | cons c cs =>
      have hlen' : cs.length ≤ n := by
        simp only [List.length_cons] at hlen
        omega
      by_cases hsp : pyIsSpace c = true
      · rw [List.cons_append, reFindAll_space c _ hsp, reFindAll_space c cs hsp]
        exact ih cs ys hlen' fun c' hc' => hq c' (List.mem_cons_of_mem c hc')
      · have hq0 : ¬ c = '"' := hq c (List.mem_cons_self c cs)
        have hsp' : pyIsSpace c = false := by
          cases hpc : pyIsSpace c
          · rfl
          · exact absurd hpc hsp
        rw [List.cons_append, reFindAll_token c _ hsp' hq0,
          reFindAll_token c cs hsp' hq0]
        have htw : (cs ++ ' ' :: ys).takeWhile (fun x => ¬ pyIsSpace x) =
            cs.takeWhile (fun x => ¬ pyIsSpace x) := by
          rw [List.takeWhile_append]
          split
          · next hlenEq =>
            have hfull : cs.takeWhile (fun x => ¬ pyIsSpace x) = cs :=
              (List.takeWhile_prefix _).eq_of_length hlenEq
            rw [hfull, List.takeWhile_cons_of_neg (by simp [pyIsSpace])]
            simp
          · rfl
        have hdw : (cs ++ ' ' :: ys).dropWhile (fun x => ¬ pyIsSpace x) =
            cs.dropWhile (fun x => ¬ pyIsSpace x) ++ ' ' :: ys := by
          rw [List.dropWhile_append]
          split
          · next hemp =>
            rw [List.isEmpty_iff] at hemp
            rw [hemp, List.nil_append,
              List.dropWhile_cons_of_neg (by simp [pyIsSpace])]
          · rfl
        rw [htw, hdw]
        rw [ih (cs.dropWhile (fun x => ¬ pyIsSpace x)) ys
          (le_trans ((List.dropWhile_sublist _).length_le) hlen')
          fun c' hc' => hq c' (List.mem_cons_of_mem c (List.dropWhile_subset _ hc'))]
        rw [List.cons_append]

/-- Tokens of a quote-free segment followed by a space are found
independently of what follows the space. -/
theorem reFindAll_append_space (xs ys : List Char)
    (hq : ∀ c ∈ xs, ¬ c = '"') :
    reFindAll (xs ++ ' ' :: ys) = reFindAll xs ++ reFindAll ys :=
  reFindAll_append_space_aux xs.length xs ys (le_refl _) hq

/-- C9, counterexample: a `{file}` placeholder in the command *name*
keeps the double quotes wrapped around the path (the quote-stripping only
happens to opts tokens), so the path never appears unquoted in argv; and
a `{file}` embedded in a larger opts token is split at whitespace, so a
path containing a space does not survive as a single argument. -/
theorem C9_counterexample :
    getCmdList "{file}" "" "x" = ["\"x\""] ∧
    ¬ "x" ∈ getCmdList "{file}" "" "x" ∧
    getCmdList "v" "--f={file}" "a b" = ["v", "--f=\"a", "b"] ∧
    ¬ "a b" ∈ getCmdList "v" "--f={file}" "a b" := by
  refine ⟨?_, ?_, ?_, ?_⟩
  · simp [getCmdList, replaceFile, reFindAll]
  · simp [getCmdList, replaceFile, reFindAll]
  · simp [getCmdList, replaceFile, reFindAll, lazyQuote, lazyBody, pyIsSpace,
      stripQuotes]
  · simp [getCmdList, replaceFile, reFindAll, lazyQuote, lazyBody, pyIsSpace,
      stripQuotes]

/-- C9, amended: `{file}` in the command name is replaced by the path
*wrapped in double quotes*, which remain in `argv[0]`. In the opts, a
`{file}` standing alone as a whitespace-delimited token — the whole opts
string, or separated by whitespace from arbitrary quote-free, brace-free
opts segments on either side — is replaced by the quoted path, which
tokenization keeps intact and quote-stripping reduces to the bare path: a
single argument without quotes, even when the path contains whitespace.
This requires the path to be non-empty and to contain no `"` and no
newline (an empty path yields no argument at all; a quote or newline in
the path derails the quoted-token match). -/
theorem C9_file_templating (cmd preS postS p : String) (hne : ¬ p = "")
    (hq : ∀ c ∈ p.data, ¬ c = '"') (hn : ∀ c ∈ p.data, ¬ c = '\n')
    (hpre : ∀ c ∈ preS.data, ¬ c = '"' ∧ ¬ c = '{')
    (hpost : ∀ c ∈ postS.data, ¬ c = '"' ∧ ¬ c = '{') :
    getCmdList cmd "{file}" p =
      [⟨replaceFile ('"' :: (p.data ++ ['"'])) cmd.data⟩, p] ∧
    getCmdList cmd (preS ++ " {file} " ++ postS) p =
      ⟨replaceFile ('"' :: (p.data ++ ['"'])) cmd.data⟩ ::
        ((reFindAll preS.data).map (fun t => (⟨stripQuotes t⟩ : String)) ++
          p :: (reFindAll postS.data).map (fun t => (⟨stripQuotes t⟩ : String))) := by
  have hdne : ¬ p.data = [] := by
    intro hd
    apply hne
    cases p
    simp_all
  have hcomb : ∀ c ∈ p.data, ¬ c = '"' ∧ ¬ c = '\n' :=
    fun c hc => ⟨hq c hc, hn c hc⟩
  constructor
  · show (⟨replaceFile ('"' :: (p.data ++ ['"'])) cmd.data⟩ : String) ::
        (reFindAll (replaceFile ('"' :: (p.data ++ ['"']))
          ("{file}" : String).data)).map
          (fun t => (⟨stripQuotes t⟩ : String)) =
        [⟨replaceFile ('"' :: (p.data ++ ['"'])) cmd.data⟩, p]
    rw [show ("{file}" : String).data = ['{', 'f', 'i', 'l', 'e', '}'] from rfl]
    rw [replaceFile_placeholder]
    rw [reFindAll_quoted p.data [] hdne hcomb, reFindAll_nil]
    rw [List.map_singleton, stripQuotes_quoted p.data hq]
  · show (⟨replaceFile ('"' :: (p.data ++ ['"'])) cmd.data⟩ : String) ::
        (reFindAll (replaceFile ('"' :: (p.data ++ ['"']))
          (preS ++ " {file} " ++ postS).data)).map
          (fun t => (⟨stripQuotes t⟩ : String)) = _
    have hod : (preS ++ " {file} " ++ postS).data =
        (preS.data ++ [' ']) ++
          ('{' :: 'f' :: 'i' :: 'l' :: 'e' :: '}' :: (' ' :: postS.data)) := by
      simp
    rw [hod]
    rw [replaceFile_append_no_brace _ _ _ ?preBrace]
    case preBrace =>
      intro c hc
      rcases List.mem_append.mp hc with hc | hc
      · exact (hpre c hc).2
      · rw [List.mem_singleton.mp hc]; decide
    rw [replaceFile_placeholder_cons]
    rw [replaceFile_cons_ne _ ' ' _ (by decide)]
    rw [replaceFile_no_brace _ postS.data fun c hc => (hpost c hc).2]
    rw [show (preS.data ++ [' ']) ++
          (('"' :: (p.data ++ ['"'])) ++ ' ' :: postS.data) =
        preS.data ++ ' ' :: ('"' :: (p.data ++ '"' :: (' ' :: postS.data)))
      by simp]
    rw [reFindAll_append_space preS.data _ fun c hc => (hpre c hc).1]
    rw [reFindAll_quoted p.data (' ' :: postS.data) hdne hcomb]
    rw [reFindAll_space ' ' postS.data (by decide)]
    rw [List.map_append, List.map_cons, stripQuotes_quoted p.data hq]

/-- C9, witness: with opts `--noclear {file} --fullscreen`, a path with a
space survives as exactly one unquoted argument between the other
tokens. -/
theorem C9_file_templating_witness :
    getCmdList "viewer" "--noclear {file} --fullscreen" "/a b/c.png"
      = ["viewer", "--noclear", "/a b/c.png", "--fullscreen"] := by
  have h := (C9_file_templating "viewer" "--noclear" "--fullscreen" "/a b/c.png"
    (by decide) (by decide) (by decide) (by decide) (by decide)).2
  rw [show (("--noclear" : String) ++ " {file} " ++ "--fullscreen")
      = "--noclear {file} --fullscreen" from rfl] at h
  rw [h]
  simp [replaceFile, reFindAll, lazyQuote, lazyBody, pyIsSpace, stripQuotes]

/-! ## Claim C8 — glob case-insensitivity -/

/-- `Char.ofNat` at a valid (below-surrogate) code point. -/
theorem char_toNat_ofNat {n : Nat} (h : n < 55296) : (Char.ofNat n).toNat = n := by
  have hv : n.isValidChar := Or.inl h
  rw [Char.ofNat, dif_pos hv]
  simp [Char.ofNatAux, Char.toNat]
  rfl

/-- An ASCII letter's code point lies in `A`..`Z` or `a`..`z`. -/
theorem pyIsAlpha_ranges (c : Char) (h : pyIsAlpha c = true) :
    (65 ≤ c.toNat ∧ c.toNat ≤ 90) ∨ (97 ≤ c.toNat ∧ c.toNat ≤ 122) := by
  simpa [pyIsAlpha, pyIsUpper, pyIsLower] using h

/-- Lower-casing a letter lands in `a`..`z`. -/
theorem pyToLower_alpha_range (c : Char) (h : pyIsAlpha c = true) :
    97 ≤ (pyToLower c).toNat ∧ (pyToLower c).toNat ≤ 122 := by
  rcases pyIsAlpha_ranges c h with ⟨h1, h2⟩ | ⟨h1, h2⟩
  · rw [pyToLower, if_pos ⟨h1, h2⟩, char_toNat_ofNat (by omega)]
    omega
  · rw [pyToLower, if_neg (by omega)]
    omega

/-- Upper-casing a letter lands in `A`..`Z`. -/
theorem pyToUpper_alpha_range (c : Char) (h : pyIsAlpha c = true) :
    65 ≤ (pyToUpper c).toNat ∧ (pyToUpper c).toNat ≤ 90 := by
  rcases pyIsAlpha_ranges c h with ⟨h1, h2⟩ | ⟨h1, h2⟩
  · rw [pyToUpper, if_neg (by omega)]
    omega
  · rw [pyToUpper, if_pos ⟨h1, h2⟩, char_toNat_ofNat (by omega)]
    omega

/-- The lower-case form of a letter is not one of the class
metacharacters. -/
theorem pyToLower_ne (c : Char) (h : pyIsAlpha c = true) :
    ¬ pyToLower c = '!' ∧ ¬ pyToLower c = ']' := by
  have hr := pyToLower_alpha_range c h
  constructor <;> (intro he; rw [he] at hr; exact absurd hr (by decide))

/-- The upper-case form of a letter is not the class closer. -/
theorem pyToUpper_ne (c : Char) (h : pyIsAlpha c = true) :
    ¬ pyToUpper c = ']' := by
  have hr := pyToUpper_alpha_range c h
  intro he
  rw [he] at hr
  exact absurd hr (by decide)

/-- A letter equals one of its two case forms. -/
theorem alpha_self_case (c : Char) (h : pyIsAlpha c = true) :
    c = pyToLower c ∨ c = pyToUpper c := by
  rcases pyIsAlpha_ranges c h with ⟨h1, h2⟩ | ⟨h1, h2⟩
  · right
    rw [pyToUpper, if_neg (by omega)]
  · left
    rw [pyToLower, if_neg (by omega)]

/-- For a non-letter pattern character, a case-variant character is
equal. -/
theorem caseEqB_not_alpha (c d : Char) (ha : pyIsAlpha c = false)
    (h : caseEqB c d = true) : d = c := by
  simpa [caseEqB, ha] using h

/-- For a letter pattern character, a case-variant character is one of the
two case forms. -/
theorem caseEqB_alpha (c d : Char) (ha : pyIsAlpha c = true)
    (h : caseEqB c d = true) : d = pyToLower c ∨ d = pyToUpper c := by
  simp [caseEqB, ha] at h
  rcases h with rfl | h
  · exact alpha_self_case d ha
  · exact h

/-- Parsing the two-member class produced for a letter. -/
theorem parseClass_pair (l u : Char) (rest : List Char)
    (h1 : ¬ l = '!') (h2 : ¬ l = ']') (h3 : ¬ u = ']') :
    parseClass (l :: u :: ']' :: rest) =
      some (false, [l, u], ⟨rest, by simp only [List.length_cons]; omega⟩) := by
  simp [parseClass, classScan, h1, h2, h3]

/-- Parsing the escaped-`[` class `[[]`. -/
theorem parseClass_escaped (rest : List Char) :
    parseClass ('[' :: ']' :: rest) =
      some (false, ['['], ⟨rest, by simp only [List.length_cons]; omega⟩) := by
  simp [parseClass, classScan]

/-- One step of `globMatch` on a parsed bracket class. -/
theorem globMatch_class (ps : List Char) (neg : Bool) (mem : List Char)
    (rest : List Char) (hrest : rest.length < ps.length) (d : Char)
    (ss : List Char) (h : parseClass ps = some (neg, mem, ⟨rest, hrest⟩)) :
    globMatch ('[' :: ps) (d :: ss) =
      ((neg != mem.contains d) && globMatch rest ss) := by
  rw [globMatch, if_neg (by decide), if_neg (by decide), if_pos rfl, h]

/-- One step of `globMatch` on a literal pattern character. -/
theorem globMatch_lit (pc : Char) (ps : List Char) (d : Char) (ss : List Char)
    (h1 : ¬ pc = '*') (h2 : ¬ pc = '?') (h3 : ¬ pc = '[') :
    globMatch (pc :: ps) (d :: ss) = (decide (d = pc) && globMatch ps ss) := by
  rw [globMatch, if_neg h1, if_neg h2, if_neg h3]

/-- `_caseInsensitiveGlobPattern` works character by character: `[` is
escaped to the class `[[]`, any other character becomes its
case-insensitive form. -/
theorem ciGlobPattern_cons (c : Char) (l : List Char) :
    ciGlobPattern (c :: l) =
      (if c = '[' then ['[', '[', ']'] else upperOrLowerChar c) ++ ciGlobPattern l := by
  by_cases h : c = '['
  · subst h
    simp [ciGlobPattern, escapeOpenBracket, upperOrLowerChar, pyIsAlpha,
      pyIsUpper, pyIsLower]
  · simp [ciGlobPattern, escapeOpenBracket, h]

/-- The pattern `_caseInsensitiveGlobPattern` builds from a wildcard-free
string matches every ASCII-case variant of that string. -/
theorem globMatch_ciGlobPattern (g : List Char) :
    ∀ (f : List Char), caseVariant g f = true →
      (∀ c ∈ g, ¬ c = '*' ∧ ¬ c = '?') →
      globMatch (ciGlobPattern g) f = true := by
  induction g with
  | nil =>
    intro f hcv _
    cases f with
    | nil => simp [ciGlobPattern, escapeOpenBracket, globMatch]
    | cons d ds => simp [caseVariant] at hcv
  | cons c cs ih =>
    intro f hcv hw
    cases f with
    | nil => simp [caseVariant] at hcv
    | cons d ds =>
      simp only [caseVariant, Bool.and_eq_true] at hcv
      obtain ⟨hcd, htail⟩ := hcv
      have hrec := ih ds htail fun c' hc' => hw c' (List.mem_cons_of_mem c hc')
      rw [ciGlobPattern_cons]
      by_cases hbr : c = '['
      · subst hbr
        have hd : d = '[' := caseEqB_not_alpha '[' d (by decide) hcd
        rw [if_pos rfl, List.cons_append, List.cons_append, List.cons_append,
          List.nil_append,
          globMatch_class _ false ['['] (ciGlobPattern cs)
            (by simp only [List.length_cons]; omega)
            d ds (parseClass_escaped (ciGlobPattern cs))]
        simp [hd, hrec]
      · rw [if_neg hbr]
        by_cases hal : pyIsAlpha c = true
        · obtain ⟨hl1, hl2⟩ := pyToLower_ne c hal
          have hu := pyToUpper_ne c hal
          rw [upperOrLowerChar, if_pos hal, List.cons_append, List.cons_append,
            List.cons_append, List.cons_append, List.nil_append,
            globMatch_class _ false [pyToLower c, pyToUpper c]
              (ciGlobPattern cs) (by simp only [List.length_cons]; omega) d ds
              (parseClass_pair (pyToLower c) (pyToUpper c) (ciGlobPattern cs)
                hl1 hl2 hu)]
          rcases caseEqB_alpha c d hal hcd with rfl | rfl <;>
            simp [hrec]
        · have hd : d = c := caseEqB_not_alpha c d
            (Bool.not_eq_true _ ▸ hal) hcd
          obtain ⟨hstar, hqm⟩ := hw c (List.mem_cons_self c cs)
          rw [upperOrLowerChar, if_neg (by simp [hal]), List.cons_append,
            List.nil_append,
            globMatch_lit c (ciGlobPattern cs) d ds hstar hqm hbr]
          simp [hd, hrec]

/-- C8 (confirmed): the case-insensitive transformation maps each
alphabetic character to the class of its lower- and upper-case forms,
leaves every other character (wildcards included) unchanged, escapes a
literal `[` as `[[]` before the transformation — and consequently the
pattern built from any wildcard-free expansion matches every ASCII-case
variant of it. -/
theorem C8_glob_case_insensitivity :
    (∀ c : Char, pyIsAlpha c = true →
      ciGlobPattern [c] = ['[', pyToLower c, pyToUpper c, ']']) ∧
    (∀ c : Char, pyIsAlpha c = false → ¬ c = '[' → ciGlobPattern [c] = [c]) ∧
    ciGlobPattern ['['] = ['[', '[', ']'] ∧
    (∀ G F : String, caseVariant G.data F.data = true →
      (∀ c ∈ G.data, ¬ c = '*' ∧ ¬ c = '?') →
      globMatch (caseInsensitiveGlobPattern G).data F.data = true) := by
  refine ⟨fun c hal => ?_, fun c hal hbr => ?_, ?_, fun G F hcv hw => ?_⟩
  · have hbr : ¬ c = '[' := by
      intro he
      rw [he] at hal
      exact absurd hal (by decide)
    rw [ciGlobPattern_cons, if_neg hbr, upperOrLowerChar, if_pos hal]
    rfl
  · rw [ciGlobPattern_cons, if_neg hbr, upperOrLowerChar, if_neg (by simp [hal])]
    rfl
  · rfl
  · exact globMatch_ciGlobPattern G.data F.data hcv hw

/-- C8, witness: the pattern built from the case-shifted name `CHASEhq.ZIP`
matches the file name `chaseHQ.zip`. -/
theorem C8_glob_case_insensitivity_witness :
    globMatch (caseInsensitiveGlobPattern "CHASEhq.ZIP").data
      ("chaseHQ.zip" : String).data = true :=
  C8_glob_case_insensitivity.2.2.2 "CHASEhq.ZIP" "chaseHQ.zip"
    (by decide) (by decide)

end Dynquee
